import Mathlib

/-!
# Verification of the macmon sensor-sampling core

A shallow embedding, in Lean 4, of the pure/algorithmic content of the
`macmon` repository (files `smc.rs`, `io_report.rs`, `io_hid.rs`,
`sources.rs`).  Kernel interactions (`IOConnectCallStructMethod`,
`IOReportCreateSamples`, HID service enumeration, ...) are modelled as
explicit oracle functions passed to the embedded operations; mutable
`self` state is threaded explicitly; Rust `Result` becomes `Except`;
machine integers become `Nat`/`Int` with explicit `% 2 ^ w` where wrap
can matter; Rust panics (out-of-bounds slice, `unwrap` of `from_utf8`)
become an explicit `panic` error value.  Floating-point values that the
claims only move around (HID temperatures) are kept opaque; the one
floating-point formula under test (`cfio_watts`) is modelled over `ℚ`.
-/

namespace Macmon

/-! ## FourCC encoding (smc.rs lines 185, 194, 210, 219)

`key.bytes().fold(0, |acc, x| (acc << 8) + x as u32)` packs a key
big-endian into a `u32`; `u32::to_be_bytes` unpacks.  `u32` arithmetic
wraps, hence the `% 2 ^ 32`. -/

/-- The fold `|acc, x| (acc << 8) + x as u32` over the bytes of a key,
with `u32` wrap-around. -/
def fourcc (key : List Nat) : Nat :=
  key.foldl (fun acc x => ((acc <<< 8) + x) % 2 ^ 32) 0

/-- `u32::to_be_bytes`: the four big-endian bytes of a `u32`. -/
def u32BeBytes (n : Nat) : List Nat :=
  [n / 2 ^ 24 % 256, n / 2 ^ 16 % 256, n / 2 ^ 8 % 256, n % 256]

/-- `u32::from_be_bytes` on a 4-byte slice. -/
def beU32 (bs : List Nat) : Nat :=
  bs.foldl (fun acc x => acc * 256 + x) 0

/-! ## Energy-to-watts decoding (io_report.rs lines 97-106)

`cfio_watts` divides the channel's first integer slot by the elapsed
seconds and by a unit-dependent divisor.  The `f32` arithmetic of the
source is modelled exactly over `ℚ`; the claim under test is the
unit-label dispatch and the shape of the formula, which `ℚ` preserves. -/

/-- Error raised by `cfio_watts` for a unit label outside mJ/uJ/nJ
(source: `Err(format!("Invalid energy unit: {}", unit))`). -/
inductive CfioError where
  | unknownEnergyUnit (unit : String)
deriving DecidableEq

/-- `cfio_watts(item, unit, duration)` with the channel's integer value
`c` already extracted (`IOReportSimpleGetIntegerValue(item, 0)`). -/
def cfio_watts (c : Int) (unit : String) (duration : Nat) : Except CfioError ℚ :=
  let val : ℚ := (c : ℚ) / ((duration : ℚ) / 1000)
  match unit with
  | "mJ" => .ok (val / 1000)
  | "uJ" => .ok (val / 1000000)
  | "nJ" => .ok (val / 1000000000)
  | _ => .error (.unknownEnergyUnit unit)

/-! ## DVFS blob decoding (sources.rs lines 309-327)

`get_dvfs_mhz` walks the registry blob in `chunks_exact(8)`; each chunk
is `(freq_hz: u32 LE at 0, volt: u32 LE at 4)`; frequency is divided by
1000 twice. -/

/-- `u32::from_le_bytes [a, b, c, d]`. -/
def le32 (a b c d : Nat) : Nat :=
  a + 256 * b + 65536 * c + 16777216 * d

/-- The `chunks_exact(8)` loop body of `get_dvfs_mhz`: one
`(volt, freq_mhz)` pair per full 8-byte chunk, the trailing partial
chunk (if any) dropped. -/
def dvfsPairs : List Nat → List (Nat × Nat)
  | a :: b :: c :: d :: e :: f :: g :: h :: rest =>
      (le32 e f g h, le32 a b c d / 1000 / 1000) :: dvfsPairs rest
  | _ => []

/-- `get_dvfs_mhz`: decode the blob into `(volts, freqs_mhz)`. -/
def get_dvfs_mhz (blob : List Nat) : List Nat × List Nat :=
  ((dvfsPairs blob).map Prod.fst, (dvfsPairs blob).map Prod.snd)

/-! ## IOReport continuous sampling (io_report.rs lines 239-268)

`raw_sample` returns an opaque sample dictionary plus an `Instant`; we
model the sequence of `raw_sample` results as a stream `Nat → Nat × Nat`
of `(sample id, time in ms)` indexed by call order.  A delta
(`IOReportCreateSamplesDelta(prev, next)`) is modelled as the pair of
the two sample ids.  The sleeps performed by the loop are returned as an
explicit trace of their millisecond arguments. -/

/-- `usize::clamp(1, 32)` as applied to `count`. -/
def clampCount (count : Nat) : Nat := min (max count 1) 32

/-- The `for _ in 0..count` loop of `get_samples`: at step `j` the code
sleeps `step` ms, takes `next := raw_sample()` (the `k+j`-th call of the
run), pushes the delta `(prev, next)` with
`elapsed = max(next.time - prev.time, 1)` (`duration_since` saturates at
zero; `as_millis() as u64` truncates mod `2 ^ 64`; `.max(1)`), and
continues with `prev := next`.  Returns the pushed list and the final
`prev`. -/
def samplesLoop (stream : Nat → Nat × Nat) : Nat → Nat → Nat × Nat →
    List ((Nat × Nat) × Nat) × (Nat × Nat)
  | _, 0, prev => ([], prev)
  | k, n + 1, prev =>
      let next := stream k
      let elapsed := max ((next.2 - prev.2) % 2 ^ 64) 1
      let rest := samplesLoop stream (k + 1) n next
      (((prev.1, next.1), elapsed) :: rest.1, rest.2)

/-- `IOReport::get_samples(duration, count)`.  `prevO` is the carried
`self.prev` cursor (`None` on the first call).  Returns the sample list,
the new cursor, and the list of sleep durations performed. -/
def get_samples (stream : Nat → Nat × Nat) (duration count : Nat)
    (prevO : Option (Nat × Nat)) :
    List ((Nat × Nat) × Nat) × (Nat × Nat) × List Nat :=
  let c := clampCount count
  let step := duration / c
  let pk : (Nat × Nat) × Nat :=
    match prevO with
    | some p => (p, 0)
    | none => (stream 0, 1)
  let run := samplesLoop stream pk.2 c pk.1
  (run.1, run.2, List.replicate c step)

/-! ## SMC client (smc.rs lines 86-241, duplicated in sources.rs 536-693)

The wire structs are embedded field by field; `[u8; 32]` becomes a
`List Nat` (the kernel oracle is free to answer anything, exactly as the
unchecked `IOConnectCallStructMethod` output is; the Rust type always
carries 32 bytes, and the embedded slice operation panics on
out-of-range exactly as Rust's `bytes[0..n]` does).  The kernel is an
oracle `conn → request → (return code, response)`; every kernel call an
operation issues is recorded in a trace of `(conn, request)` pairs.
Strings are byte lists (`str::len` is a byte count). -/

/-- smc.rs `KeyInfo`. -/
structure KeyInfo where
  data_size : Nat := 0
  data_type : Nat := 0
  data_attributes : Nat := 0
deriving DecidableEq, Repr

/-- smc.rs `KeyDataVer`. -/
structure KeyDataVer where
  major : Nat := 0
  minor : Nat := 0
  build : Nat := 0
  reserved : Nat := 0
  release : Nat := 0
deriving DecidableEq, Repr

/-- smc.rs `PLimitData`. -/
structure PLimitData where
  version : Nat := 0
  length : Nat := 0
  cpu_p_limit : Nat := 0
  gpu_p_limit : Nat := 0
  mem_p_limit : Nat := 0
deriving DecidableEq, Repr

/-- smc.rs `KeyData` (the fixed-layout request/response struct; the
field defaults embed `KeyData::default()`). -/
structure KeyData where
  key : Nat := 0
  vers : KeyDataVer := {}
  p_limit_data : PLimitData := {}
  key_info : KeyInfo := {}
  result : Nat := 0
  status : Nat := 0
  data8 : Nat := 0
  data32 : Nat := 0
  bytes : List Nat := List.replicate 32 0
deriving DecidableEq, Repr

/-- smc.rs `SensorVal` (strings as byte lists). -/
structure SensorVal where
  name : List Nat
  unit : List Nat
  data : List Nat
deriving DecidableEq, Repr

/-- The error values the SMC paths produce.  `transport c` is
`"IOConnectCallStructMethod: c"`, `keyNotFound` is
`"SMC key not found"` (result 132), `protocol r` is `"SMC error: r"`,
`invalidKey` is `"SMC key must be 4 bytes long"`, `openFail c` is
`"IOServiceOpen: c"`, and `panic` marks a Rust panic (out-of-bounds
slice or `unwrap` of an invalid-UTF-8 conversion). -/
inductive Err where
  | transport (code : Int)
  | keyNotFound
  | protocol (r : Nat)
  | invalidKey
  | openFail (code : Int)
  | panic
deriving DecidableEq, Repr

/-- The kernel oracle behind `IOConnectCallStructMethod(conn, 2, ...)`:
maps a connection id and a request struct to the raw return code and
the output struct. -/
def Kernel : Type := Nat → KeyData → Int × KeyData

/-- The mutable state of an `SMC` value: the connection id and the
key-metadata cache (`HashMap<u32, KeyInfo>` as an association list;
insertion shadows, lookup takes the most recent binding). -/
structure SMCState where
  conn : Nat
  keys : List (Nat × KeyInfo)
deriving DecidableEq, Repr

/-- `HashMap::get` on the association-list model. -/
def lookupKey (m : List (Nat × KeyInfo)) (k : Nat) : Option KeyInfo :=
  match m with
  | [] => none
  | (k0, v) :: rest => if k0 = k then some v else lookupKey rest k

/-- A kernel-call trace: the `(conn, request)` pairs issued. -/
abbrev Trace : Type := List (Nat × KeyData)

/-- Rust's `&l[0..n]`: the first `n` elements when `n ≤ l.len()`, a
panic otherwise. -/
def rustSlice (l : List Nat) (n : Nat) : Except Err (List Nat) :=
  if n ≤ l.length then .ok (l.take n) else .error .panic

/-- Is a byte a UTF-8 continuation byte (`0x80..=0xBF`)? -/
def contB (b : Nat) : Bool := 0x80 ≤ b && b ≤ 0xBF

/-- Validity of a byte list as UTF-8, as `std::str::from_utf8` checks
it (RFC 3629: no overlong forms, no surrogates, max U+10FFFF). -/
def utf8Valid : List Nat → Bool
  | [] => true
  | b :: rest =>
    if b ≤ 0x7F then utf8Valid rest
    else if 0xC2 ≤ b && b ≤ 0xDF then
      match rest with
      | c :: r => contB c && utf8Valid r
      | _ => false
    else if b = 0xE0 then
      match rest with
      | c :: d :: r => (0xA0 ≤ c && c ≤ 0xBF) && contB d && utf8Valid r
      | _ => false
    else if (0xE1 ≤ b && b ≤ 0xEC) || b = 0xEE || b = 0xEF then
      match rest with
      | c :: d :: r => contB c && contB d && utf8Valid r
      | _ => false
    else if b = 0xED then
      match rest with
      | c :: d :: r => (0x80 ≤ c && c ≤ 0x9F) && contB d && utf8Valid r
      | _ => false
    else if b = 0xF0 then
      match rest with
      | c :: d :: e :: r => (0x90 ≤ c && c ≤ 0xBF) && contB d && contB e && utf8Valid r
      | _ => false
    else if 0xF1 ≤ b && b ≤ 0xF3 then
      match rest with
      | c :: d :: e :: r => contB c && contB d && contB e && utf8Valid r
      | _ => false
    else if b = 0xF4 then
      match rest with
      | c :: d :: e :: r => (0x80 ≤ c && c ≤ 0x8F) && contB d && contB e && utf8Valid r
      | _ => false
    else false

/-- `SMC::read`: issue the request on the state's connection, then
check the kernel return code and the struct's `result` byte
(132 → key not found, other non-zero → protocol error). -/
def smcRead (κ : Kernel) (s : SMCState) (req : KeyData) : Except Err KeyData :=
  let out := κ s.conn req
  if out.1 ≠ 0 then .error (.transport out.1)
  else if out.2.result = 132 then .error .keyNotFound
  else if out.2.result ≠ 0 then .error (.protocol out.2.result)
  else .ok out.2

/-- `SMC::key_by_index`: command 8 with the index in `data32`; the
response `key` is rendered via `to_be_bytes` and
`str::from_utf8(..).unwrap()` (panic on invalid UTF-8).  The cache is
untouched. -/
def key_by_index (κ : Kernel) (index : Nat) (s : SMCState) :
    Except Err (List Nat) × SMCState × Trace :=
  match smcRead κ s { data8 := 8, data32 := index } with
  | .error e => (.error e, s, [(s.conn, { data8 := 8, data32 := index })])
  | .ok oval =>
      if utf8Valid (u32BeBytes oval.key) then
        (.ok (u32BeBytes oval.key), s, [(s.conn, { data8 := 8, data32 := index })])
      else (.error .panic, s, [(s.conn, { data8 := 8, data32 := index })])

/-- `SMC::read_key_info`: reject keys whose byte length is not 4, else
look the FourCC up in the cache; on a miss issue command 9 and insert
the response's `key_info`. -/
def read_key_info (κ : Kernel) (key : List Nat) (s : SMCState) :
    Except Err KeyInfo × SMCState × Trace :=
  if key.length ≠ 4 then (.error .invalidKey, s, [])
  else
    match lookupKey s.keys (fourcc key) with
    | some ki => (.ok ki, s, [])
    | none =>
        match smcRead κ s { data8 := 9, key := fourcc key } with
        | .error e => (.error e, s, [(s.conn, { data8 := 9, key := fourcc key })])
        | .ok oval =>
            (.ok oval.key_info,
             { s with keys := (fourcc key, oval.key_info) :: s.keys },
             [(s.conn, { data8 := 9, key := fourcc key })])

/-- `SMC::read_val`: load the key's metadata (possibly from cache),
issue command 5, and build the `SensorVal` — `unit` is
`from_utf8(data_type.to_be_bytes()).unwrap()` (panic on invalid UTF-8),
`data` is the slice `bytes[0..data_size]` (panic past the end).  Note
the cache mutation performed by `read_key_info` persists even when the
command-5 call then fails. -/
def read_val (κ : Kernel) (key : List Nat) (s : SMCState) :
    Except Err SensorVal × SMCState × Trace :=
  match read_key_info κ key s with
  | (.error e, s1, t1) => (.error e, s1, t1)
  | (.ok ki, s1, t1) =>
      match smcRead κ s1 { data8 := 5, key := fourcc key, key_info := ki } with
      | .error e =>
          (.error e, s1, t1 ++ [(s1.conn, { data8 := 5, key := fourcc key, key_info := ki })])
      | .ok oval =>
          if utf8Valid (u32BeBytes ki.data_type) then
            match rustSlice oval.bytes ki.data_size with
            | .error e =>
                (.error e, s1,
                 t1 ++ [(s1.conn, { data8 := 5, key := fourcc key, key_info := ki })])
            | .ok payload =>
                (.ok ⟨key, u32BeBytes ki.data_type, payload⟩, s1,
                 t1 ++ [(s1.conn, { data8 := 5, key := fourcc key, key_info := ki })])
          else
            (.error .panic, s1,
             t1 ++ [(s1.conn, { data8 := 5, key := fourcc key, key_info := ki })])

/-- The byte list of the literal key `"#KEY"`. -/
def keyHashKEY : List Nat := [35, 75, 69, 89]

/-- The `for i in 0..val` loop of `SMC::read_all_keys`, over an
explicit list of indices: resolve `key_by_index(i)` (its failure aborts
via `?`), try `read_val(key)`, skip the key when that read fails, push
`val.name` when it succeeds. -/
def rakLoop (κ : Kernel) : List Nat → SMCState →
    Except Err (List (List Nat)) × SMCState × Trace
  | [], s => (.ok [], s, [])
  | i :: rest, s =>
      match key_by_index κ i s with
      | (.error e, s1, t1) => (.error e, s1, t1)
      | (.ok key, s1, t1) =>
          match read_val κ key s1 with
          | (.error _, s2, t2) =>
              match rakLoop κ rest s2 with
              | (r, s3, t3) => (r, s3, t1 ++ t2 ++ t3)
          | (.ok v, s2, t2) =>
              match rakLoop κ rest s2 with
              | (r, s3, t3) => (r.map (fun l => v.name :: l), s3, t1 ++ t2 ++ t3)

/-- `SMC::read_all_keys`: read `"#KEY"`, take the big-endian `u32` from
the first four payload bytes (`val.data[0..4]` — a panic when the
payload is shorter), and run the enumeration loop. -/
def read_all_keys (κ : Kernel) (s : SMCState) :
    Except Err (List (List Nat)) × SMCState × Trace :=
  match read_val κ keyHashKEY s with
  | (.error e, s1, t1) => (.error e, s1, t1)
  | (.ok v, s1, t1) =>
      match rustSlice v.data 4 with
      | .error e => (.error e, s1, t1)
      | .ok bs =>
          match rakLoop κ (List.range (beU32 bs)) s1 with
          | (r, s2, t2) => (r, s2, t1 ++ t2)

/-- The `for (device, name) in IOServiceIterator::new("AppleSMC")?`
loop of `SMC::new`: `conn` starts at 0 and is only written by a
successful `IOServiceOpen` on an entry named `"AppleSMCKeysEndpoint"`;
a failed open aborts.  `openFn device = (return code, written conn)`
models `IOServiceOpen(device, mach_task_self(), 0, &mut conn)`. -/
def smcNewLoop (openFn : Nat → Int × Nat) :
    List (Nat × String) → Nat → Except Err Nat
  | [], conn => .ok conn
  | (device, name) :: rest, conn =>
      if name = "AppleSMCKeysEndpoint" then
        let r := openFn device
        if r.1 ≠ 0 then .error (.openFail r.1)
        else smcNewLoop openFn rest r.2
      else smcNewLoop openFn rest conn

/-- `SMC::new`, given the `(entry id, registry name)` pairs the
`AppleSMC` service iterator yields. -/
def smcNew (services : List (Nat × String)) (openFn : Nat → Int × Nat) :
    Except Err SMCState :=
  (smcNewLoop openFn services 0).map (fun c => ⟨c, []⟩)

/-! ## HID temperature scanner (io_hid.rs lines 76-118)

A service yielded by `IOHIDEventSystemClientCopyServices` is modelled
by its observable outcomes: the `"Product"` property (null → `none`)
and the temperature event (null → `none`); the float value read from a
non-null event is opaque to the sorting claim and kept as an `Int`
payload.  A null entry in the services array is `none`.  Rust's
`sort_by` with `a.0.partial_cmp(&b.0).unwrap()` is a stable sort by
name; a stable sort's output is unique, so it is embedded as insertion
sort by `(·.1 ≤ ·.1)` (which inserts after equal keys' earlier
occurrences, i.e. is stable). -/

/-- One HID service client as `get_metrics` observes it. -/
structure HidService where
  product : Option String
  event : Option Int
deriving DecidableEq, Repr

/-- The per-service body of the `get_metrics` loop: skip a null
service, a null `"Product"` property, or a null temperature event;
otherwise produce `(name, temp)`. -/
def hidExtract (svc : Option HidService) : Option (String × Int) :=
  match svc with
  | none => none
  | some sc =>
      match sc.product with
      | none => none
      | some name =>
          match sc.event with
          | none => none
          | some temp => some (name, temp)

instance decRelByName : DecidableRel (fun (a b : String × Int) => a.1 ≤ b.1) :=
  fun a b => inferInstanceAs (Decidable (a.1 ≤ b.1))

/-- `IOHIDSensors::get_metrics`: `systemOk` is whether
`IOHIDEventSystemClientCreate` returned non-null, `servicesO` the
(possibly null) services array. -/
def get_metrics (systemOk : Bool) (servicesO : Option (List (Option HidService))) :
    List (String × Int) :=
  if !systemOk then []
  else
    match servicesO with
    | none => []
    | some services =>
        List.insertionSort (fun a b => a.1 ≤ b.1) (services.filterMap hidExtract)

deriving instance DecidableEq for Except

/-! ## Theorems -/

/-- C5: FourCC round-trip — packing four bytes big-endian into a `u32`
by the fold `(acc << 8) + byte` and unpacking with `to_be_bytes`
returns the original four bytes (stated for arbitrary bytes `< 256`,
which covers every 4-ASCII-byte key). -/
theorem fourcc_roundtrip (b0 b1 b2 b3 : Nat)
    (h0 : b0 < 256) (h1 : b1 < 256) (h2 : b2 < 256) (h3 : b3 < 256) :
    u32BeBytes (fourcc [b0, b1, b2, b3]) = [b0, b1, b2, b3] := by
  simp only [fourcc, u32BeBytes, List.foldl, Nat.shiftLeft_eq, List.cons.injEq, and_true]
  refine ⟨?_, ?_, ?_, ?_⟩ <;> omega

theorem fourcc_roundtrip_witness :
    (35 < 256 ∧ 75 < 256 ∧ 69 < 256 ∧ 89 < 256) ∧
      u32BeBytes (fourcc [35, 75, 69, 89]) = [35, 75, 69, 89] :=
  ⟨by decide, fourcc_roundtrip 35 75 69 89 (by decide) (by decide) (by decide) (by decide)⟩

/-- C6: the watts decoder divides the counter by the elapsed seconds
and then by `10³` for `"mJ"`, `10⁶` for `"uJ"`, `10⁹` for `"nJ"`, and
fails with the unknown-energy-unit error on every other unit label. -/
theorem cfio_watts_spec (c : Int) (d : Nat) (u : String) :
    cfio_watts c "mJ" d = .ok ((c : ℚ) / ((d : ℚ) / 1000) / 1000) ∧
    cfio_watts c "uJ" d = .ok ((c : ℚ) / ((d : ℚ) / 1000) / 1000000) ∧
    cfio_watts c "nJ" d = .ok ((c : ℚ) / ((d : ℚ) / 1000) / 1000000000) ∧
    (u ≠ "mJ" → u ≠ "uJ" → u ≠ "nJ" →
      cfio_watts c u d = .error (.unknownEnergyUnit u)) := by
  refine ⟨rfl, rfl, rfl, fun h1 h2 h3 => ?_⟩
  unfold cfio_watts
  split <;> simp_all

theorem cfio_watts_spec_witness :
    cfio_watts 7 "mJ" 500 = .ok ((7 : ℚ) / ((500 : ℚ) / 1000) / 1000) ∧
    cfio_watts 7 "Wh" 500 = .error (.unknownEnergyUnit "Wh") :=
  ⟨(cfio_watts_spec 7 500 "Wh").1,
   (cfio_watts_spec 7 500 "Wh").2.2.2 (by decide) (by decide) (by decide)⟩

/-- The spine of the DVFS decoder: on a concatenation of exact 8-byte
records it emits one `(volt, freq)` pair per record. -/
theorem dvfsPairs_flatten (recs : List (List Nat))
    (h : ∀ r ∈ recs, r.length = 8) :
    dvfsPairs recs.flatten =
      recs.map (fun r =>
        (le32 (r.getD 4 0) (r.getD 5 0) (r.getD 6 0) (r.getD 7 0),
         le32 (r.getD 0 0) (r.getD 1 0) (r.getD 2 0) (r.getD 3 0) / 1000 / 1000)) := by
  induction recs with
  | nil => rfl
  | cons r rest ih =>
      have hr : r.length = 8 := h r (by simp)
      match r, hr with
      | [a, b, c, d, e, f, g, k], _ =>
          simp only [List.flatten_cons, List.cons_append, List.nil_append, dvfsPairs,
            List.map_cons, List.getD]
          exact congrArg _ (ih fun x hx => h x (by simp [hx]))

/-- C7: `get_dvfs_mhz` emits one `(volt, freq_mhz)` pair per 8-byte
little-endian record — `volt` from the `u32` at offset 4, `freq_mhz`
the `u32` at offset 0 divided by 1 000 000 — and a 0-length blob yields
empty arrays. -/
theorem get_dvfs_mhz_spec (recs : List (List Nat))
    (h : ∀ r ∈ recs, r.length = 8) :
    get_dvfs_mhz recs.flatten =
      (recs.map (fun r => le32 (r.getD 4 0) (r.getD 5 0) (r.getD 6 0) (r.getD 7 0)),
       recs.map (fun r =>
         le32 (r.getD 0 0) (r.getD 1 0) (r.getD 2 0) (r.getD 3 0) / 1000000)) ∧
    get_dvfs_mhz [] = ([], []) := by
  constructor
  · unfold get_dvfs_mhz
    rw [dvfsPairs_flatten recs h]
    simp only [List.map_map, Prod.mk.injEq]
    constructor
    · rfl
    · refine List.map_congr_left fun r _ => ?_
      show le32 _ _ _ _ / 1000 / 1000 = le32 _ _ _ _ / 1000000
      rw [Nat.div_div_eq_div_mul]
  · rfl

theorem get_dvfs_mhz_spec_witness :
    get_dvfs_mhz ([[0, 26, 65, 47, 5, 0, 0, 0], [64, 120, 125, 1, 3, 0, 0, 0]].flatten) =
      ([5, 3], [le32 0 26 65 47 / 1000000, le32 64 120 125 1 / 1000000]) ∧
    get_dvfs_mhz [] = ([], []) :=
  (get_dvfs_mhz_spec [[0, 26, 65, 47, 5, 0, 0, 0], [64, 120, 125, 1, 3, 0, 0, 0]]
    (by decide))

/-- `samplesLoop` produces exactly `n` records. -/
theorem samplesLoop_length (stream : Nat → Nat × Nat) :
    ∀ (n k : Nat) (prev : Nat × Nat),
      (samplesLoop stream k n prev).1.length = n := by
  intro n
  induction n with
  | zero => intro k prev; rfl
  | succ m ih => intro k prev; simpa [samplesLoop] using ih (k + 1) (stream k)

/-- Every elapsed value `samplesLoop` records is at least 1. -/
theorem samplesLoop_elapsed (stream : Nat → Nat × Nat) :
    ∀ (n k : Nat) (prev : Nat × Nat),
      ∀ e ∈ (samplesLoop stream k n prev).1, 1 ≤ e.2 := by
  intro n
  induction n with
  | zero => intro k prev e he; simp [samplesLoop] at he
  | succ m ih =>
      intro k prev e he
      simp only [samplesLoop, List.mem_cons] at he
      rcases he with rfl | he
      · exact Nat.le_max_right _ _
      · exact ih (k + 1) (stream k) e he

/-- C3: `get_samples(duration, count)` returns exactly
`clamp(count, 1, 32)` records, performs that many sleeps of
`duration / clamp(count, 1, 32)` milliseconds each, and every returned
elapsed value is at least 1. -/
theorem get_samples_spec (stream : Nat → Nat × Nat) (duration count : Nat)
    (prevO : Option (Nat × Nat)) :
    (get_samples stream duration count prevO).1.length = clampCount count ∧
    (get_samples stream duration count prevO).2.2 =
      List.replicate (clampCount count) (duration / clampCount count) ∧
    ∀ e ∈ (get_samples stream duration count prevO).1, 1 ≤ e.2 := by
  unfold get_samples
  refine ⟨?_, rfl, ?_⟩
  · cases prevO <;> exact samplesLoop_length stream _ _ _
  · cases prevO <;> exact samplesLoop_elapsed stream _ _ _

/-- C2: every successful `read_val` returns a payload of length exactly
the key's metadata `data_size` (the slice `bytes[0 .. data_size]` of
the response buffer), where the metadata is what `read_key_info`
returns for that key. -/
theorem read_val_payload_len (κ : Kernel) (key : List Nat) (s : SMCState)
    (v : SensorVal) (h : (read_val κ key s).1 = .ok v) :
    ∃ ki : KeyInfo, (read_key_info κ key s).1 = .ok ki ∧
      v.data.length = ki.data_size := by
  unfold read_val at h
  split at h
  next e s1 t1 heq => simp at h
  next ki s1 t1 heq =>
    refine ⟨ki, by rw [heq], ?_⟩
    split at h
    · simp at h
    next oval hsr =>
      split at h
      · split at h
        next e heq2 => simp at h
        next payload heq2 =>
          simp only [Except.ok.injEq] at h
          subst h
          unfold rustSlice at heq2
          split at heq2
          next hle =>
            simp only [Except.ok.injEq] at heq2
            subst heq2
            simpa [List.length_take] using hle
          · simp at heq2
      · simp at h

/-- A concrete kernel oracle used to witness the SMC theorems: every
key has 4-byte metadata, enumeration yields `"AAAA"` then `"BBBB"`,
value reads succeed except for `"BBBB"` (result 132), and the `"#KEY"`
payload encodes the count 2. -/
def testKernel : Kernel := fun _ req =>
  if req.data8 = 9 then (0, { result := 0, key_info := { data_size := 4 } })
  else if req.data8 = 8 then
    (0, { result := 0,
          key := if req.data32 = 0 then fourcc [65, 65, 65, 65]
                 else fourcc [66, 66, 66, 66] })
  else if req.data8 = 5 then
    if req.key = fourcc [66, 66, 66, 66] then (0, { result := 132 })
    else if req.key = fourcc keyHashKEY then
      (0, { result := 0, bytes := [0, 0, 0, 2] ++ List.replicate 28 0 })
    else (0, { result := 0 })
  else (1, {})

theorem read_val_payload_len_witness :
    (read_val testKernel [65, 65, 65, 65] ⟨0, []⟩).1 =
      .ok ⟨[65, 65, 65, 65], [0, 0, 0, 0], [0, 0, 0, 0]⟩ ∧
    ∃ ki : KeyInfo, (read_key_info testKernel [65, 65, 65, 65] ⟨0, []⟩).1 = .ok ki ∧
      (SensorVal.data ⟨[65, 65, 65, 65], [0, 0, 0, 0], [0, 0, 0, 0]⟩).length =
        ki.data_size :=
  ⟨by decide, read_val_payload_len testKernel [65, 65, 65, 65] ⟨0, []⟩ _ (by decide)⟩

/-- C4: `read_key_info` is idempotent and cache-first — once a call has
answered `ki` for a key, the next call with the same key answers the
same `ki` from the cache, issuing no kernel request and leaving the
state untouched; and when the first call was already a cache hit, it
mutated nothing and issued no request either. -/
theorem read_key_info_idempotent (κ : Kernel) (key : List Nat) (s : SMCState)
    (ki : KeyInfo) (s' : SMCState) (t : Trace)
    (h : read_key_info κ key s = (.ok ki, s', t)) :
    read_key_info κ key s' = (.ok ki, s', []) ∧
    ∀ ki0, lookupKey s.keys (fourcc key) = some ki0 → s' = s ∧ t = [] := by
  unfold read_key_info at h
  split at h
  next hlen => simp only [Prod.mk.injEq] at h; exact absurd h.1 (by simp)
  next hlen =>
    split at h
    next ki0 hlk =>
      simp only [Prod.mk.injEq, Except.ok.injEq] at h
      obtain ⟨rfl, rfl, rfl⟩ := h
      refine ⟨?_, fun _ _ => ⟨rfl, rfl⟩⟩
      unfold read_key_info
      rw [if_neg hlen, hlk]
    next hlk =>
      split at h
      next e hsr => simp only [Prod.mk.injEq] at h; exact absurd h.1 (by simp)
      next oval hsr =>
        simp only [Prod.mk.injEq, Except.ok.injEq] at h
        obtain ⟨rfl, rfl, rfl⟩ := h
        refine ⟨?_, fun ki0 h0 => by rw [hlk] at h0; cases h0⟩
        unfold read_key_info
        rw [if_neg hlen]
        simp [lookupKey]

theorem read_key_info_idempotent_witness :
    read_key_info testKernel [65, 65, 65, 65]
        ⟨0, [(fourcc [65, 65, 65, 65], { data_size := 4 })]⟩ =
      (.ok { data_size := 4 }, ⟨0, [(fourcc [65, 65, 65, 65], { data_size := 4 })]⟩, []) :=
  (read_key_info_idempotent testKernel [65, 65, 65, 65] ⟨0, []⟩
    { data_size := 4 } ⟨0, [(fourcc [65, 65, 65, 65], { data_size := 4 })]⟩
    [(0, { data8 := 9, key := fourcc [65, 65, 65, 65] })] (by decide)).1

/-- C9: a key whose byte length is not 4 makes `read_key_info` and
`read_val` fail with the invalid-key error, with no kernel request
issued and the cache (whole state) unchanged. -/
theorem invalid_key_rejected (κ : Kernel) (key : List Nat) (s : SMCState)
    (h : key.length ≠ 4) :
    read_key_info κ key s = (.error .invalidKey, s, []) ∧
    read_val κ key s = (.error .invalidKey, s, []) := by
  have h1 : read_key_info κ key s = (.error .invalidKey, s, []) := by
    unfold read_key_info
    simp [h]
  refine ⟨h1, ?_⟩
  unfold read_val
  rw [h1]

theorem invalid_key_rejected_witness :
    read_key_info testKernel [65, 66, 67] ⟨0, []⟩ = (.error .invalidKey, ⟨0, []⟩, []) ∧
    read_val testKernel [65, 66, 67] ⟨0, []⟩ = (.error .invalidKey, ⟨0, []⟩, []) :=
  invalid_key_rejected testKernel [65, 66, 67] ⟨0, []⟩ (by decide)

/-- `smcRead` looks at the state only through its connection id. -/
theorem smcRead_congr (κ : Kernel) (req : KeyData) (s s' : SMCState)
    (hc : s.conn = s'.conn) : smcRead κ s req = smcRead κ s' req := by
  unfold smcRead
  rw [hc]

/-- `key_by_index` leaves the state unchanged and issues exactly one
command-8 request on the state's connection. -/
theorem key_by_index_fix (κ : Kernel) (i : Nat) (s : SMCState) :
    (key_by_index κ i s).2.1 = s ∧
    (key_by_index κ i s).2.2 = [(s.conn, { data8 := 8, data32 := i })] := by
  unfold key_by_index
  split
  · exact ⟨rfl, rfl⟩
  · split <;> exact ⟨rfl, rfl⟩

/-- The result of `key_by_index` depends on the state only through its
connection id. -/
theorem key_by_index_congr (κ : Kernel) (i : Nat) (s s' : SMCState)
    (hc : s.conn = s'.conn) :
    (key_by_index κ i s).1 = (key_by_index κ i s').1 := by
  unfold key_by_index
  rw [smcRead_congr κ { data8 := 8, data32 := i } s s' hc]
  cases smcRead κ s' { data8 := 8, data32 := i } with
  | error e => rfl
  | ok oval => by_cases hv : utf8Valid (u32BeBytes oval.key) <;> simp [hv]

/-- `read_key_info` preserves the connection id and issues all its
kernel calls on it. -/
theorem read_key_info_conn (κ : Kernel) (key : List Nat) (s : SMCState) :
    (read_key_info κ key s).2.1.conn = s.conn ∧
    ∀ e ∈ (read_key_info κ key s).2.2, e.1 = s.conn := by
  unfold read_key_info
  split
  · exact ⟨rfl, by simp⟩
  · split
    · exact ⟨rfl, by simp⟩
    · split
      · refine ⟨rfl, ?_⟩
        intro e he
        simp only [List.mem_singleton] at he
        subst he
        rfl
      · refine ⟨rfl, ?_⟩
        intro e he
        simp only [List.mem_singleton] at he
        subst he
        rfl

/-- `read_val` preserves the connection id and issues all its kernel
calls on it. -/
theorem read_val_conn (κ : Kernel) (key : List Nat) (s : SMCState) :
    (read_val κ key s).2.1.conn = s.conn ∧
    ∀ e ∈ (read_val κ key s).2.2, e.1 = s.conn := by
  obtain ⟨h1, h2⟩ := read_key_info_conn κ key s
  unfold read_val
  split
  next e s1 t1 heq =>
      rw [heq] at h1 h2
      exact ⟨h1, h2⟩
  next ki s1 t1 heq =>
      rw [heq] at h1 h2
      simp only at h1 h2
      have hmem : ∀ ival : KeyData,
          ∀ e ∈ t1 ++ [(s1.conn, ival)], e.1 = s.conn := by
        intro ival e he
        rcases List.mem_append.mp he with he | he
        · exact h2 e he
        · simp only [List.mem_singleton] at he
          subst he
          exact h1
      split
      · exact ⟨h1, hmem _⟩
      · split
        · split
          · exact ⟨h1, hmem _⟩
          · exact ⟨h1, hmem _⟩
        · exact ⟨h1, hmem _⟩

/-- `rakLoop` preserves the connection id and issues all its kernel
calls on it. -/
theorem rakLoop_conn (κ : Kernel) :
    ∀ (is : List Nat) (s : SMCState),
      (rakLoop κ is s).2.1.conn = s.conn ∧
      ∀ e ∈ (rakLoop κ is s).2.2, e.1 = s.conn := by
  intro is
  induction is with
  | nil => intro s; exact ⟨rfl, by simp [rakLoop]⟩
  | cons i rest ih =>
      intro s
      obtain ⟨hfix, htr⟩ := key_by_index_fix κ i s
      unfold rakLoop
      split
      next e s1 t1 hkc =>
          rw [hkc] at hfix htr
          simp only at hfix htr
          subst hfix
          refine ⟨rfl, ?_⟩
          intro e he
          rw [htr] at he
          simp only [List.mem_singleton] at he
          subst he
          rfl
      next key s1 t1 hkc =>
          rw [hkc] at hfix htr
          simp only at hfix htr
          subst hfix
          obtain ⟨hv1, hv2⟩ := read_val_conn κ key s1
          split
          next a s2 t2 hrv =>
              rw [hrv] at hv1 hv2
              simp only at hv1 hv2
              obtain ⟨hl1, hl2⟩ := ih s2
              split
              next r s3 t3 hrl =>
                  rw [hrl] at hl1 hl2
                  simp only at hl1 hl2
                  refine ⟨by simp only; rw [hl1, hv1], ?_⟩
                  intro e he
                  simp only at he
                  rcases List.mem_append.mp he with he | he
                  · rcases List.mem_append.mp he with he | he
                    · rw [htr] at he
                      simp only [List.mem_singleton] at he
                      subst he
                      rfl
                    · exact hv2 e he
                  · rw [hv1] at hl2
                    exact hl2 e he
          next v s2 t2 hrv =>
              rw [hrv] at hv1 hv2
              simp only at hv1 hv2
              obtain ⟨hl1, hl2⟩ := ih s2
              split
              next r s3 t3 hrl =>
                  rw [hrl] at hl1 hl2
                  simp only at hl1 hl2
                  refine ⟨by simp only; rw [hl1, hv1], ?_⟩
                  intro e he
                  simp only at he
                  rcases List.mem_append.mp he with he | he
                  · rcases List.mem_append.mp he with he | he
                    · rw [htr] at he
                      simp only [List.mem_singleton] at he
                      subst he
                      rfl
                    · exact hv2 e he
                  · rw [hv1] at hl2
                    exact hl2 e he

/-- `read_all_keys` preserves the connection id and issues all its
kernel calls on it. -/
theorem read_all_keys_conn (κ : Kernel) (s : SMCState) :
    (read_all_keys κ s).2.1.conn = s.conn ∧
    ∀ e ∈ (read_all_keys κ s).2.2, e.1 = s.conn := by
  obtain ⟨h1, h2⟩ := read_val_conn κ keyHashKEY s
  unfold read_all_keys
  split
  next e s1 t1 hrv =>
      rw [hrv] at h1 h2
      exact ⟨h1, h2⟩
  next v s1 t1 hrv =>
      rw [hrv] at h1 h2
      simp only at h1 h2
      split
      · exact ⟨h1, h2⟩
      next bs hbs =>
          obtain ⟨hl1, hl2⟩ := rakLoop_conn κ (List.range (beU32 bs)) s1
          split
          next r s2 t2 hrl =>
              rw [hrl] at hl1 hl2
              simp only at hl1 hl2
              refine ⟨by simp only; rw [hl1, h1], ?_⟩
              intro e he
              simp only at he
              rcases List.mem_append.mp he with he | he
              · exact h2 e he
              · rw [h1] at hl2
                exact hl2 e he

/-- When no service matches, `smcNewLoop` returns its starting
connection value. -/
theorem smcNewLoop_no_match (openFn : Nat → Int × Nat) :
    ∀ (services : List (Nat × String)) (conn : Nat),
      (∀ p ∈ services, p.2 ≠ "AppleSMCKeysEndpoint") →
      smcNewLoop openFn services conn = .ok conn := by
  intro services
  induction services with
  | nil => intro conn _; rfl
  | cons p rest ih =>
      intro conn h
      cases p with
      | mk device name =>
          unfold smcNewLoop
          rw [if_neg (h (device, name) (by simp))]
          exact ih conn fun q hq => h q (by simp [hq])

/-- C10: when the `AppleSMC` enumeration yields no entry named
`"AppleSMCKeysEndpoint"`, `SMC::new` still returns `Ok` with
connection id 0, and every SMC operation run from a connection-0 state
issues all of its kernel calls on connection 0 (and leaves the
connection id 0, so this persists across calls). -/
theorem smc_new_no_endpoint (services : List (Nat × String))
    (openFn : Nat → Int × Nat)
    (h : ∀ p ∈ services, p.2 ≠ "AppleSMCKeysEndpoint") :
    smcNew services openFn = .ok ⟨0, []⟩ ∧
    ∀ (κ : Kernel) (s : SMCState), s.conn = 0 →
      (∀ key, (read_key_info κ key s).2.1.conn = 0 ∧
        ∀ e ∈ (read_key_info κ key s).2.2, e.1 = 0) ∧
      (∀ key, (read_val κ key s).2.1.conn = 0 ∧
        ∀ e ∈ (read_val κ key s).2.2, e.1 = 0) ∧
      (∀ i, (key_by_index κ i s).2.1.conn = 0 ∧
        ∀ e ∈ (key_by_index κ i s).2.2, e.1 = 0) ∧
      ((read_all_keys κ s).2.1.conn = 0 ∧
        ∀ e ∈ (read_all_keys κ s).2.2, e.1 = 0) := by
  constructor
  · unfold smcNew
    rw [smcNewLoop_no_match openFn services 0 h]
    rfl
  · intro κ s hc
    refine ⟨fun key => ?_, fun key => ?_, fun i => ?_, ?_⟩
    · obtain ⟨a, b⟩ := read_key_info_conn κ key s
      exact ⟨by rw [a, hc], fun e he => by rw [b e he, hc]⟩
    · obtain ⟨a, b⟩ := read_val_conn κ key s
      exact ⟨by rw [a, hc], fun e he => by rw [b e he, hc]⟩
    · obtain ⟨a, b⟩ := key_by_index_fix κ i s
      refine ⟨by rw [a, hc], fun e he => ?_⟩
      rw [b] at he
      simp only [List.mem_singleton] at he
      subst he
      exact hc
    · obtain ⟨a, b⟩ := read_all_keys_conn κ s
      exact ⟨by rw [a, hc], fun e he => by rw [b e he, hc]⟩

theorem smc_new_no_endpoint_witness :
    smcNew [(5, "AppleSMC"), (6, "SomethingElse")] (fun _ => (0, 9)) = .ok ⟨0, []⟩ :=
  (smc_new_no_endpoint [(5, "AppleSMC"), (6, "SomethingElse")] (fun _ => (0, 9))
    (by decide)).1

/-- The accumulation `list_keys` is specified to perform: for each
resolved key in order, try `read(key)` on the running client and keep
exactly the keys whose read succeeded, skipping failures silently. -/
def accumulateSucceeded (κ : Kernel) :
    List (List Nat) → SMCState → List (List Nat) × SMCState
  | [], s => ([], s)
  | k :: rest, s =>
      match read_val κ k s with
      | (.ok _, s1, _) =>
          ((k :: (accumulateSucceeded κ rest s1).1), (accumulateSucceeded κ rest s1).2)
      | (.error _, s1, _) => accumulateSucceeded κ rest s1

/-- A successful `read_val` names the `SensorVal` after the requested
key. -/
theorem read_val_name (κ : Kernel) (key : List Nat) (s : SMCState)
    (v : SensorVal) (h : (read_val κ key s).1 = .ok v) : v.name = key := by
  unfold read_val at h
  split at h
  · simp at h
  · split at h
    · simp at h
    · split at h
      · split at h
        · simp at h
        · simp only [Except.ok.injEq] at h
          subst h
          rfl
      · simp at h

/-- The enumeration loop of `read_all_keys` never aborts when every
`key_by_index` resolution succeeds, and it returns exactly the keys the
spec's accumulation keeps. -/
theorem rakLoop_ok (κ : Kernel) (sref : SMCState) (f : Nat → List Nat) :
    ∀ (is : List Nat) (t : SMCState), t.conn = sref.conn →
      (∀ i ∈ is, (key_by_index κ i sref).1 = .ok (f i)) →
      (rakLoop κ is t).1 = .ok (accumulateSucceeded κ (is.map f) t).1 := by
  intro is
  induction is with
  | nil => intro t _ _; rfl
  | cons i rest ih =>
      intro t hc hk
      have hres : (key_by_index κ i t).1 = .ok (f i) :=
        (key_by_index_congr κ i t sref hc).trans (hk i (by simp))
      obtain ⟨hfix, _⟩ := key_by_index_fix κ i t
      unfold rakLoop
      split
      next e s1 t1 hkc =>
          rw [hkc] at hres
          simp at hres
      next key s1 t1 hkc =>
          rw [hkc] at hres hfix
          simp only [Except.ok.injEq] at hres
          simp only at hfix
          subst hfix
          subst hres
          obtain ⟨hvc, _⟩ := read_val_conn κ (f i) s1
          simp only [List.map_cons, accumulateSucceeded]
          split
          next a s2 t2 hrv =>
              rw [hrv] at hvc
              simp only at hvc
              rw [hrv]
              exact ih s2 (hvc.trans hc) fun j hj => hk j (by simp [hj])
          next v s2 t2 hrv =>
              rw [hrv] at hvc
              simp only at hvc
              rw [hrv]
              have hname : v.name = f i :=
                read_val_name κ (f i) s1 v (by rw [hrv])
              rw [ih s2 (hvc.trans hc) fun j hj => hk j (by simp [hj])]
              simp [Except.map, hname]

/-- C1: under a successful `"#KEY"` read whose payload yields the
count `N`, and successful per-index key resolution, `read_all_keys`
returns `Ok` — a failed per-key `read_val` never aborts it — and the
returned list is exactly the keys for which the read succeeded, in
enumeration order. -/
theorem read_all_keys_skips_failed (κ : Kernel) (s s1 : SMCState)
    (v : SensorVal) (t1 : Trace) (f : Nat → List Nat)
    (hkey : read_val κ keyHashKEY s = (.ok v, s1, t1))
    (hlen : 4 ≤ v.data.length)
    (hk : ∀ i < beU32 (v.data.take 4), (key_by_index κ i s1).1 = .ok (f i)) :
    (read_all_keys κ s).1 =
      .ok (accumulateSucceeded κ
        ((List.range (beU32 (v.data.take 4))).map f) s1).1 := by
  unfold read_all_keys
  split
  next e s1a t1a hrv =>
      rw [hkey] at hrv
      simp at hrv
  next v0 s1a t1a hrv =>
      rw [hkey] at hrv
      simp only [Prod.mk.injEq, Except.ok.injEq] at hrv
      obtain ⟨rfl, rfl, rfl⟩ := hrv
      have hsl : rustSlice v.data 4 = .ok (v.data.take 4) := by
        unfold rustSlice
        rw [if_pos hlen]
      rw [hsl]
      split
      next e heq => simp at heq
      next bs heq =>
          simp only [Except.ok.injEq] at heq
          subst heq
          split
          next r s2 t2 hrl =>
              simp only
              have := rakLoop_ok κ s1 f (List.range (beU32 (v.data.take 4))) s1 rfl
                (fun i hi => hk i (List.mem_range.mp hi))
              rw [hrl] at this
              exact this

/-- The keys `testKernel` enumerates: `"AAAA"` at index 0, `"BBBB"`
everywhere else. -/
def testKeyAt (i : Nat) : List Nat :=
  if i = 0 then [65, 65, 65, 65] else [66, 66, 66, 66]

theorem read_all_keys_skips_failed_witness :
    (read_all_keys testKernel ⟨0, []⟩).1 =
      .ok (accumulateSucceeded testKernel
        ((List.range (beU32 ((SensorVal.data
            ⟨keyHashKEY, [0, 0, 0, 0], [0, 0, 0, 2]⟩).take 4))).map testKeyAt)
        ⟨0, [(fourcc keyHashKEY, { data_size := 4 })]⟩).1 :=
  read_all_keys_skips_failed testKernel ⟨0, []⟩
    ⟨0, [(fourcc keyHashKEY, { data_size := 4 })]⟩
    ⟨keyHashKEY, [0, 0, 0, 0], [0, 0, 0, 2]⟩
    [(0, { data8 := 9, key := fourcc keyHashKEY }),
     (0, { data8 := 5, key := fourcc keyHashKEY, key_info := { data_size := 4 } })]
    testKeyAt (by decide) (by decide) (by decide)

/-- Inserting by name with `orderedInsert` preserves each per-name
subsequence: the elements the inserted pair passes over have strictly
smaller names, so it lands in front of every pair carrying its own
name. -/
theorem filter_orderedInsert_byName (n : String) (a : String × Int) :
    ∀ l : List (String × Int),
      (List.orderedInsert (fun x y => x.1 ≤ y.1) a l).filter (fun x => x.1 == n) =
        if a.1 = n then a :: l.filter (fun x => x.1 == n)
        else l.filter (fun x => x.1 == n) := by
  intro l
  induction l with
  | nil =>
      by_cases h : a.1 = n <;>
        simp [List.orderedInsert, List.filter_cons, h]
  | cons b bs ih =>
      by_cases hab : a.1 ≤ b.1
      · simp only [List.orderedInsert, if_pos hab, List.filter_cons, beq_iff_eq]
      · simp only [List.orderedInsert, if_neg hab, List.filter_cons, beq_iff_eq, ih]
        by_cases hbn : b.1 = n
        · have hlt : b.1 < a.1 := lt_of_not_le hab
          have han : ¬a.1 = n := fun hc => absurd (hc.trans hbn.symm) (ne_of_gt hlt)
          simp [hbn, han]
        · simp [hbn]

/-- The insertion sort by name preserves each per-name subsequence
(this is stability: ties keep their input order). -/
theorem filter_insertionSort_byName (n : String) :
    ∀ l : List (String × Int),
      (List.insertionSort (fun x y => x.1 ≤ y.1) l).filter (fun x => x.1 == n) =
        l.filter (fun x => x.1 == n) := by
  intro l
  induction l with
  | nil => rfl
  | cons a l ih =>
      simp only [List.insertionSort, filter_orderedInsert_byName, ih,
        List.filter_cons, beq_iff_eq]

/-- C8: the HID scanner's output is sorted by product name ascending
(total order on strings), the sort is stable — for every name the
subsequence of readings carrying that name equals the one produced in
discovery order — and an empty service set yields the empty list. -/
theorem get_metrics_sorted_stable (services : List (Option HidService)) :
    List.Sorted (fun a b => a.1 ≤ b.1) (get_metrics true (some services)) ∧
    (∀ n : String,
      (get_metrics true (some services)).filter (fun x => x.1 == n) =
        (services.filterMap hidExtract).filter (fun x => x.1 == n)) ∧
    get_metrics true (some []) = [] := by
  haveI ht : IsTotal (String × Int) (fun a b => a.1 ≤ b.1) :=
    ⟨fun a b => le_total a.1 b.1⟩
  haveI htr : IsTrans (String × Int) (fun a b => a.1 ≤ b.1) :=
    ⟨fun a b c h1 h2 => le_trans h1 h2⟩
  refine ⟨?_, ?_, rfl⟩
  · exact List.sorted_insertionSort _ _
  · intro n
    exact filter_insertionSort_byName n _

end Macmon
